import Mathlib

/-!
# Verification of the ISO-21 document-mapping core pipeline

A shallow embedding of the repository's loading, cross-referencing and
graph-assembly code (`app/visual/controls.py`, `app/visual/documents.py`,
`app/visual/selected_documents.py`, `app/visual/presenter.py`,
`app/visual/presenter_layout.py`, `app/selector/document_selector_utils.py`).

Python strings are modelled as `List Char`; the character classes `\d` and
`\s` of the source's regular expressions are modelled over their ASCII
portions.  Python `float(...)` applied to a digit string is modelled exactly
as IEEE-754 binary64 rounding of the corresponding natural number
(round-to-nearest, ties-to-even), with every overflowing value collapsed to
a single "infinity" representative, since only comparisons of such values
matter to the code.  The file system is modelled as an optional list of
named entries whose `read` field is `none` when opening or decoding the file
would raise.  The iteration order of a Python `set` and of a directory
listing is unspecified; both are therefore passed in explicitly, and
theorems quantify over all valid orders.
-/

namespace ISOMap

abbrev Str := List Char

/-- ASCII decimal digit, the ASCII part of the regex class `\d`. -/
def isDigitC (c : Char) : Bool := '0' ≤ c && c ≤ '9'

/-- ASCII whitespace, the ASCII part of the regex class `\s` and of the
whitespace set stripped by Python's `str.strip()`. -/
def isPySpace (c : Char) : Bool :=
  c = ' ' || c = '\t' || c = '\n' || c = '\r' || c = '\x0b' || c = '\x0c'

/-- Value of a run of decimal digits, as computed by Python `int(...)`. -/
def digitsToNat (s : Str) : Nat :=
  s.foldl (fun a c => 10 * a + (c.toNat - '0'.toNat)) 0

/-- ASCII lower-casing of one character, the ASCII part of `str.lower()`. -/
def toLowerC (c : Char) : Char :=
  if 'A' ≤ c && c ≤ 'Z' then Char.ofNat (c.toNat + 32) else c

def lowerS (s : Str) : Str := s.map toLowerC

/-- Python `str.strip()` over the modelled whitespace set. -/
def pyStrip (s : Str) : Str :=
  ((s.dropWhile isPySpace).reverse.dropWhile isPySpace).reverse

/-- Search step of the lazy group `(.+?)\.md$`: the shortest non-empty
newline-free prefix `mid` such that the remainder is exactly `.md`
(or `.md` before a final newline, which is how `$` behaves in Python). -/
def lazyMdSplit : Str → Option Str
  | [] => none
  | c :: rest =>
    if c = '\n' then none
    else if rest = ['.', 'm', 'd'] || rest = ['.', 'm', 'd', '\n'] then some [c]
    else
      match lazyMdSplit rest with
      | some mid => some (c :: mid)
      | none => none

/-- Backtracking over how many characters the greedy `\s+` keeps: Python's
engine first keeps the whole whitespace run and gives characters back one at
a time (a given-back whitespace character must then be matched by `.`). -/
def mdBacktrack : Nat → Str → Str → Option Str
  | 0, _, _ => none
  | k + 1, w, rest =>
    match lazyMdSplit (w.drop (k + 1) ++ rest) with
    | some mid => some mid
    | none => mdBacktrack k w rest

/-- Model of `re.match(r"^(\d+\.\d+)\s+(.+?)\.md$", filename)`, the filename pattern
shared by `load_controls` and `load_selected_controls`.  Returns the two
captured groups `(id, name)` on success. -/
def pyMatchFilename (s : Str) : Option (Str × Str) :=
  let d1 := s.takeWhile isDigitC
  let r1 := s.dropWhile isDigitC
  if d1 = [] then none
  else
    match r1 with
    | '.' :: r2 =>
      let d2 := r2.takeWhile isDigitC
      let r3 := r2.dropWhile isDigitC
      if d2 = [] then none
      else
        let w := r3.takeWhile isPySpace
        let rest := r3.dropWhile isPySpace
        if w = [] then none
        else
          match mdBacktrack w.length w rest with
          | some mid => some (d1 ++ '.' :: d2, mid)
          | none => none
    | _ => none

/-- Model of `re.match(r"^(\d+)\.md$", filename)`, the reference-document filename
pattern of `load_documents`. -/
def parseDocFilename (s : Str) : Option Str :=
  let d := s.takeWhile isDigitC
  let r := s.dropWhile isDigitC
  if d = [] then none
  else if r = ['.', 'm', 'd'] || r = ['.', 'm', 'd', '\n'] then some d
  else none

/-- Number of binary digits of `n` (fuel-based so that it evaluates in the
kernel; the fuel `n` dominates the number of halvings). -/
def bitsAux : Nat → Nat → Nat
  | 0, _ => 0
  | fuel + 1, n => if n = 0 then 0 else bitsAux fuel (n / 2) + 1

def natBits (n : Nat) : Nat := bitsAux n n

/-- Python `float(s)` on a digit string `s` with value `n`: the IEEE-754
binary64 nearest value (ties to even).  Exact below `2^53`; all values that
overflow to infinity are collapsed to the single representative `2^1024`
(only comparisons between converted values are ever used). -/
def floatOfNat (n : Nat) : Nat :=
  if n < 2 ^ 53 then n
  else
    let k := natBits n - 53
    let q := n / 2 ^ k
    let r := n % 2 ^ k
    let half := 2 ^ (k - 1)
    let q2 := if half < r || (r = half && q % 2 = 1) then q + 1 else q
    let v := q2 * 2 ^ k
    if 2 ^ 1024 ≤ v then 2 ^ 1024 else v

/-- Component `id.split(".")[0]` of a control id. -/
def idMajor (s : Str) : Str := s.takeWhile (fun c => c ≠ '.')

/-- Component `id.split(".")[1]` of a control id. -/
def idMinor (s : Str) : Str :=
  (((s.dropWhile (fun c => c ≠ '.')).drop 1).takeWhile (fun c => c ≠ '.'))

/-- Sort key of `load_controls` / `load_selected_controls`:
`(float(id.split(".")[0]), float(id.split(".")[1]))`. -/
def controlFloatKey (s : Str) : Nat × Nat :=
  (floatOfNat (digitsToNat (idMajor s)), floatOfNat (digitsToNat (idMinor s)))

/-- Integer-pair key the specification talks about. -/
def controlIntKey (s : Str) : Nat × Nat :=
  (digitsToNat (idMajor s), digitsToNat (idMinor s))

/-- Python tuple comparison on a pair of naturals. -/
def pairLe (p q : Nat × Nat) : Prop :=
  p.1 < q.1 ∨ (p.1 = q.1 ∧ p.2 ≤ q.2)

instance : DecidableRel pairLe := fun p q => by
  unfold pairLe; infer_instance

theorem pairLe_total (p q : Nat × Nat) : pairLe p q ∨ pairLe q p := by
  unfold pairLe; omega

theorem pairLe_trans {p q r : Nat × Nat} (h1 : pairLe p q) (h2 : pairLe q r) :
    pairLe p r := by
  unfold pairLe at *; omega

/-! ## File-system model and the three load operations -/

/-- One directory entry: a filename together with the outcome of reading it
(`none` models an `open`/decode failure caught by the per-file handler). -/
structure FileEntry where
  name : Str
  read : Option Str
deriving DecidableEq

/-- The warnings printed by the load loops for skipped files. -/
inductive Warning where
  | badPattern (filename : Str)
  | unreadable (filename : Str)
deriving DecidableEq

structure Control where
  id : Str
  name : Str
  content : Str
deriving DecidableEq

structure Document where
  id : Str
  name : Str
  content : Str
deriving DecidableEq

structure SelectedControl where
  id : Str
  name : Str
  relevantDocumentIds : List Str
deriving DecidableEq

/-- Model of `path.glob("*.md")`: the entries whose name ends in `.md`, in listing
order (pathlib's glob does not exclude dot-files). -/
def globMd (entries : List FileEntry) : List FileEntry :=
  entries.filter (fun e => ['.', 'm', 'd'].isSuffixOf e.name)

def controlLe (a b : Control) : Prop := pairLe (controlFloatKey a.id) (controlFloatKey b.id)

instance : DecidableRel controlLe := fun a b => by unfold controlLe; infer_instance

instance : IsTotal Control controlLe :=
  ⟨fun a b => pairLe_total (controlFloatKey a.id) (controlFloatKey b.id)⟩

instance : IsTrans Control controlLe :=
  ⟨fun _ _ _ h1 h2 => pairLe_trans h1 h2⟩

/-- One iteration of the `load_controls` loop. -/
def stepControl (acc : List Control × List Warning) (e : FileEntry) :
    List Control × List Warning :=
  match pyMatchFilename e.name with
  | some (i, n) =>
    match e.read with
    | some c => (acc.1 ++ [⟨i, n, c⟩], acc.2)
    | none => (acc.1, acc.2 ++ [Warning.unreadable e.name])
  | none => (acc.1, acc.2 ++ [Warning.badPattern e.name])

/-- The loop body of `load_controls` followed by the final
`controls.sort(key=...)` (Python's sort is stable; `insertionSort` computes
the unique stable result). -/
def loadControlsEntries (entries : List FileEntry) : List Control × List Warning :=
  (List.insertionSort controlLe ((globMd entries).foldl stepControl ([], [])).1,
   ((globMd entries).foldl stepControl ([], [])).2)

/-- Model of `load_controls`: raises `FileNotFoundError` exactly when the directory is
absent, otherwise returns the parsed batch together with the warnings. -/
def loadControls (dir : Option (List FileEntry)) :
    Except String (List Control × List Warning) :=
  match dir with
  | none => .error "Controls directory not found"
  | some entries => .ok (loadControlsEntries entries)

/-- Component `content.split("\n")[0]`. -/
def firstLine (c : Str) : Str := c.takeWhile (fun x => x ≠ '\n')

/-- Name derivation of `load_documents`: strip the first line; if it starts
with `#`, remove the leading markers and strip again; fall back to the
identifier when the result is empty. -/
def docName (content id : Str) : Str :=
  let fl := pyStrip (firstLine content)
  let nm :=
    if fl.head? = some '#' then pyStrip (fl.dropWhile (fun c => c = '#'))
    else fl
  if nm = [] then id else nm

def documentLe (a b : Document) : Prop := digitsToNat a.id ≤ digitsToNat b.id

instance : DecidableRel documentLe := fun a b => by unfold documentLe; infer_instance

instance : IsTotal Document documentLe := ⟨fun _ _ => Nat.le_total _ _⟩

instance : IsTrans Document documentLe := ⟨fun _ _ _ => Nat.le_trans⟩

/-- One iteration of the `load_documents` loop. -/
def stepDocument (acc : List Document × List Warning) (e : FileEntry) :
    List Document × List Warning :=
  match parseDocFilename e.name with
  | some i =>
    match e.read with
    | some c => (acc.1 ++ [⟨i, docName c i, c⟩], acc.2)
    | none => (acc.1, acc.2 ++ [Warning.unreadable e.name])
  | none => (acc.1, acc.2 ++ [Warning.badPattern e.name])

/-- The loop body of `load_documents` followed by
`documents.sort(key=lambda x: int(x.id))`. -/
def loadDocumentsEntries (entries : List FileEntry) : List Document × List Warning :=
  (List.insertionSort documentLe ((globMd entries).foldl stepDocument ([], [])).1,
   ((globMd entries).foldl stepDocument ([], [])).2)

/-- Model of `load_documents`. -/
def loadDocuments (dir : Option (List FileEntry)) :
    Except String (List Document × List Warning) :=
  match dir with
  | none => .error "Documents directory not found"
  | some entries => .ok (loadDocumentsEntries entries)

/-! ## Cross-reference extraction and the selection index -/

/-- Scanner for `re.findall(r"/pages/(\d+)", content)`, fuel-recursive so
that it evaluates inside the kernel; every step consumes at least one
character, so fuel `s.length` is always enough. -/
def findPageIdsAux : Nat → Str → List Str
  | 0, _ => []
  | _ + 1, [] => []
  | fuel + 1, c :: rest =>
    if (c :: rest).take 7 = ['/', 'p', 'a', 'g', 'e', 's', '/'] &&
        ((c :: rest).drop 7).takeWhile isDigitC ≠ [] then
      ((c :: rest).drop 7).takeWhile isDigitC ::
        findPageIdsAux fuel (((c :: rest).drop 7).dropWhile isDigitC)
    else
      findPageIdsAux fuel rest

/-- Model of `re.findall(r"/pages/(\d+)", content)`: the non-overlapping left-to-right
occurrences of the literal `/pages/` followed by a maximal non-empty digit
run; scanning resumes after each matched run. -/
def findPageIds (s : Str) : List Str := findPageIdsAux s.length s

/-- Ordering used for `relevant_ids.sort(key=lambda x: int(x))`. -/
def strIntLe (a b : Str) : Prop := digitsToNat a ≤ digitsToNat b

instance : DecidableRel strIntLe := fun a b => by unfold strIntLe; infer_instance

instance : IsTotal Str strIntLe := ⟨fun _ _ => Nat.le_total _ _⟩

instance : IsTrans Str strIntLe := ⟨fun _ _ _ => Nat.le_trans⟩

/-- The body of `extract_document_ids_from_content` after
`found_ids = set(matches)`: the set is handed to us as the explicit
enumeration `order` (Python set iteration order is unspecified); it is
filtered against the available ids and stably sorted by integer value. -/
def extractCore (order avail : List Str) : List Str :=
  List.insertionSort strIntLe (order.filter (fun x => decide (x ∈ avail)))

/-- Predicate stating that `order` is a valid iteration order of the
deduplicating `set(...)`: it
enumerates exactly the distinct elements of the match list `ms`, each once. -/
def ValidDedup (ms order : List Str) : Prop :=
  order.Nodup ∧ ∀ x, x ∈ order ↔ x ∈ ms

/-- A chooser assigning a set-iteration order to every match list. -/
def ChooseValid (choose : List Str → List Str) : Prop :=
  ∀ ms, ValidDedup ms (choose ms)

def selectedLe (a b : SelectedControl) : Prop :=
  pairLe (controlFloatKey a.id) (controlFloatKey b.id)

instance : DecidableRel selectedLe := fun a b => by unfold selectedLe; infer_instance

instance : IsTotal SelectedControl selectedLe :=
  ⟨fun a b => pairLe_total (controlFloatKey a.id) (controlFloatKey b.id)⟩

instance : IsTrans SelectedControl selectedLe :=
  ⟨fun _ _ _ h1 h2 => pairLe_trans h1 h2⟩

/-- One iteration of the `load_selected_controls` loop (template skipping,
filename parsing, read, extraction).  `choose` supplies the set iteration
order used for the deduplicating `set(matches)` of each file. -/
def stepSelected (avail : List Str) (choose : List Str → List Str)
    (acc : List SelectedControl × List Warning) (e : FileEntry) :
    List SelectedControl × List Warning :=
  if lowerS e.name = "template.md".data then acc
  else
    match pyMatchFilename e.name with
    | some (i, n) =>
      match e.read with
      | some c =>
        (acc.1 ++ [⟨i, n, extractCore (choose (findPageIds c)) avail⟩], acc.2)
      | none => (acc.1, acc.2 ++ [Warning.unreadable e.name])
    | none => (acc.1, acc.2 ++ [Warning.badPattern e.name])

/-- The loop body of `load_selected_controls` followed by the final stable
sort. -/
def loadSelectedControlsEntries (entries : List FileEntry) (docs : List Document)
    (choose : List Str → List Str) : List SelectedControl × List Warning :=
  (List.insertionSort selectedLe
    ((globMd entries).foldl (stepSelected (docs.map (fun d => d.id)) choose)
      ([], [])).1,
   ((globMd entries).foldl (stepSelected (docs.map (fun d => d.id)) choose)
      ([], [])).2)

/-- Model of `load_selected_controls`. -/
def loadSelectedControls (dir : Option (List FileEntry)) (docs : List Document)
    (choose : List Str → List Str) :
    Except String (List SelectedControl × List Warning) :=
  match dir with
  | none => .error "Selected documents directory not found"
  | some entries => .ok (loadSelectedControlsEntries entries docs choose)

/-! ## Selector-side document metadata (`document_selector_utils.py`) -/

def sourceUrlMarker : Str := "**Source URL:**".data

def httpsLit : Str := "https://".data

def httpLit : Str := "http://".data

/-- One attempt of `re.search(r"\*\*Source URL:\*\*\s*(https?://[^\s]+)", c)`
at the current position: the literal marker, then greedy `\s*` (which may
cross line boundaries), then the scheme, then a maximal non-empty run of
non-whitespace characters. -/
def sourceUrlAt (s : Str) : Option Str :=
  if s.take 15 = sourceUrlMarker then
    let rest := (s.drop 15).dropWhile isPySpace
    if rest.take 8 = httpsLit then
      let run := (rest.drop 8).takeWhile (fun c => !isPySpace c)
      if run = [] then none else some (httpsLit ++ run)
    else if rest.take 7 = httpLit then
      let run := (rest.drop 7).takeWhile (fun c => !isPySpace c)
      if run = [] then none else some (httpLit ++ run)
    else none
  else none

/-- Python `re.search` scans positions left to right and returns the first match. -/
def searchSourceUrl : Str → Option Str
  | [] => none
  | c :: t =>
    match sourceUrlAt (c :: t) with
    | some u => some u
    | none => searchSourceUrl t

/-- The `url` computed by `extract_document_metadata` (the `.strip()` on the
captured group is a no-op: the group contains no whitespace). -/
def metaUrl (content : Str) : Str := (searchSourceUrl content).getD []

/-- Model of `content.split("\n")`. -/
def splitLines (c : Str) : List Str :=
  match c with
  | [] => [[]]
  | x :: t =>
    match splitLines t with
    | [] => [[]]
    | l :: ls => if x = '\n' then [] :: l :: ls else (x :: l) :: ls

/-- Title loop of `extract_document_metadata`: the first line whose stripped
form starts with `#` sets the title (`"# "` drops two characters, a bare
`"#"` drops one) and breaks. -/
def metaTitle : List Str → Str
  | [] => []
  | l :: ls =>
    let st := pyStrip l
    if st.take 2 = ['#', ' '] then pyStrip (st.drop 2)
    else if st.take 1 = ['#'] then pyStrip (st.drop 1)
    else metaTitle ls

/-- Model of `os.path.splitext(filename)[0]`: everything before the last dot, where
the leading dots of the name do not count as an extension separator. -/
def splitExtBase (f : Str) : Str :=
  let lead := f.takeWhile (fun c => c = '.')
  let rest := f.dropWhile (fun c => c = '.')
  if rest.contains '.' then
    lead ++ ((rest.reverse.dropWhile (fun c => c ≠ '.')).drop 1).reverse
  else f

structure DocMeta where
  filename : Str
  content : Str
  title : Str
  url : Str
deriving DecidableEq

/-- Model of `extract_document_metadata(document_content, filename)`. -/
def extractDocumentMetadata (content filename : Str) : DocMeta :=
  let t := metaTitle (splitLines content)
  { filename := filename
    content := content
    title := if t = [] then splitExtBase filename else t
    url := metaUrl content }

/-! ## Lookup helpers (`get_control_by_id`, `get_document_by_id`) -/

def getControlById : List Control → Str → Option Control
  | [], _ => none
  | c :: rest, i => if c.id = i then some c else getControlById rest i

def getDocumentById : List Document → Str → Option Document
  | [], _ => none
  | d :: rest, i => if d.id = i then some d else getDocumentById rest i

/-! ## Graph assembly (`create_elements`) -/

/-- Python dictionaries-and-strings value universe of the element list. -/
inductive JValue where
  | s (v : Str)
  | obj (fields : List (Str × JValue))

def jLookup (k : Str) : JValue → Option JValue
  | .s _ => none
  | .obj fs => go fs
where
  go : List (Str × JValue) → Option JValue
    | [] => none
    | (k', v) :: rest => if k' = k then some v else go rest

def jKeys : JValue → List Str
  | .s _ => []
  | .obj fs => fs.map (fun p => p.1)

def kData : Str := "data".data
def kId : Str := "id".data
def kLabel : Str := "label".data
def kClasses : Str := "classes".data
def kSource : Str := "source".data
def kTarget : Str := "target".data

/-- The element appended for one control:
`{"data": {"id": ..., "label": f"{id} {name}", "classes": "Control"}}`. -/
def controlNode (c : Control) : JValue :=
  .obj [(kData, .obj [(kId, .s c.id), (kLabel, .s (c.id ++ ' ' :: c.name)),
    (kClasses, .s "Control".data)])]

/-- The element appended for one document:
`{"data": {"id": ..., "label": name}, "classes": "Document"}`. -/
def documentNode (d : Document) : JValue :=
  .obj [(kData, .obj [(kId, .s d.id), (kLabel, .s d.name)]),
    (kClasses, .s "Document".data)]

/-- The element appended for one relevance pair:
`{"data": {"source": controlId, "target": documentId}}`. -/
def edgeElement (src tgt : Str) : JValue :=
  .obj [(kData, .obj [(kSource, .s src), (kTarget, .s tgt)])]

/-- Model of `create_elements` (identical in `presenter.py` and
`presenter_layout.py`): three sequential append loops over controls,
documents and selection records. -/
def createElements (controls : List Control) (documents : List Document)
    (selectedControls : List SelectedControl) : List JValue :=
  let e1 := controls.foldl (fun acc c => acc ++ [controlNode c]) []
  let e2 := documents.foldl (fun acc d => acc ++ [documentNode d]) e1
  selectedControls.foldl
    (fun acc s =>
      s.relevantDocumentIds.foldl (fun acc2 rid => acc2 ++ [edgeElement s.id rid]) acc)
    e2

/-- The full visual pipeline over already-listed directories: load the three
catalogs and assemble the element list (`presenter.main` without the UI). -/
def pipeline (ec ed es : List FileEntry) (choose : List Str → List Str) :
    List JValue :=
  createElements (loadControlsEntries ec).1 (loadDocumentsEntries ed).1
    (loadSelectedControlsEntries es (loadDocumentsEntries ed).1 choose).1

/-- The keyed label stored under `data`. -/
def dataLabel (e : JValue) : Option JValue := (jLookup kData e).bind (jLookup kLabel)

/-- The kind marker of a node, wherever the element stores it: the top-level
`classes` key if present, else the `classes` key inside `data`. -/
def nodeKind (e : JValue) : Option JValue :=
  match jLookup kClasses e with
  | some v => some v
  | none => (jLookup kData e).bind (jLookup kClasses)

/-- The `target` ids of the edge elements, used to compare element lists. -/
def edgeTargets (l : List JValue) : List Str :=
  l.filterMap (fun e =>
    match (jLookup kData e).bind (jLookup kTarget) with
    | some (.s v) => some v
    | _ => none)

/-- Set-iteration order that enumerates first occurrences first. -/
def chooseFwd (ms : List Str) : List Str := ms.dedup

/-- Set-iteration order that enumerates the reversed list's first
occurrences first. -/
def chooseRev (ms : List Str) : List Str := ms.reverse.dedup

/-! ## General lemmas about the embedded operations -/

theorem foldl_append_singleton {α β : Type} (f : α → β) (l : List α)
    (acc : List β) :
    l.foldl (fun a x => a ++ [f x]) acc = acc ++ l.map f := by
  induction l generalizing acc with
  | nil => simp
  | cons x t ih => simp [ih]

theorem createElements_eq (cs : List Control) (ds : List Document)
    (ss : List SelectedControl) :
    createElements cs ds ss =
      cs.map controlNode ++ ds.map documentNode ++
        ss.flatMap (fun s => s.relevantDocumentIds.map (edgeElement s.id)) := by
  show
    (ss.foldl
      (fun acc s =>
        s.relevantDocumentIds.foldl
          (fun acc2 rid => acc2 ++ [edgeElement s.id rid]) acc)
      (ds.foldl (fun acc d => acc ++ [documentNode d])
        (cs.foldl (fun acc c => acc ++ [controlNode c]) []))) = _
  rw [foldl_append_singleton, foldl_append_singleton]
  have h : ∀ (l : List SelectedControl) (acc : List JValue),
      l.foldl (fun acc s =>
        s.relevantDocumentIds.foldl
          (fun acc2 rid => acc2 ++ [edgeElement s.id rid]) acc) acc =
        acc ++ l.flatMap (fun s => s.relevantDocumentIds.map (edgeElement s.id)) := by
    intro l
    induction l with
    | nil => simp
    | cons s t ih =>
      intro acc
      simp only [List.foldl_cons, List.flatMap_cons]
      rw [foldl_append_singleton, ih, List.append_assoc]
  rw [h]
  simp

/-! ## C7 — graph assembly is a total function of the expected shape -/

/-- C7: `create_elements` is a pure total transformation: the element list is
exactly one control node per control (label `"<id> <name>"`, kind
`Control`), then one document node per reference document (label = document
name, kind `Document`), then one edge per `(controlId, documentId)` pair for
every id in each selection record's `relevantDocumentIds`; its length is
`|controls| + |documents| + Σ |relevantDocumentIds|`. -/
theorem create_elements_shape (cs : List Control) (ds : List Document)
    (ss : List SelectedControl) :
    createElements cs ds ss =
      cs.map controlNode ++ ds.map documentNode ++
        ss.flatMap (fun s => s.relevantDocumentIds.map (edgeElement s.id)) ∧
    (createElements cs ds ss).length =
      cs.length + ds.length +
        (ss.map (fun s => s.relevantDocumentIds.length)).sum ∧
    (∀ c : Control,
      dataLabel (controlNode c) = some (.s (c.id ++ ' ' :: c.name)) ∧
      nodeKind (controlNode c) = some (.s "Control".data)) ∧
    (∀ d : Document,
      dataLabel (documentNode d) = some (.s d.name) ∧
      nodeKind (documentNode d) = some (.s "Document".data)) ∧
    (∀ i t : Str, jLookup kData (edgeElement i t) =
      some (.obj [(kSource, .s i), (kTarget, .s t)])) := by
  refine ⟨createElements_eq cs ds ss, ?_, fun c => ⟨rfl, rfl⟩, fun d => ⟨rfl, rfl⟩,
    fun i t => rfl⟩
  rw [createElements_eq]
  simp only [List.length_append, List.length_map, List.length_flatMap]
  congr 1
  induction ss with
  | nil => simp
  | cons s t ih => simp [ih]

/-! ## C9 — the kind marker sits in different places for the two node shapes -/

/-- C9: in the assembled element list every control node stores its kind
under the `classes` key inside its `data` dictionary (and has no top-level
`classes` key), while every document node stores `classes` as a top-level
key whose `data` dictionary holds exactly the keys `id` and `label` (and no
nested `classes`). -/
theorem element_classes_placement (cs : List Control) (ds : List Document)
    (ss : List SelectedControl) :
    (∀ c ∈ cs, controlNode c ∈ createElements cs ds ss) ∧
    (∀ d ∈ ds, documentNode d ∈ createElements cs ds ss) ∧
    (∀ c : Control,
      jLookup kClasses (controlNode c) = none ∧
      (jLookup kData (controlNode c)).bind (jLookup kClasses) =
        some (.s "Control".data)) ∧
    (∀ d : Document,
      jLookup kClasses (documentNode d) = some (.s "Document".data) ∧
      (jLookup kData (documentNode d)).map jKeys = some [kId, kLabel] ∧
      (jLookup kData (documentNode d)).bind (jLookup kClasses) = none) := by
  refine ⟨?_, ?_, fun c => ⟨rfl, rfl⟩, fun d => ⟨rfl, rfl, rfl⟩⟩
  · intro c hc
    rw [createElements_eq]
    exact List.mem_append_left _ (List.mem_append_left _ (List.mem_map_of_mem _ hc))
  · intro d hd
    rw [createElements_eq]
    exact List.mem_append_left _ (List.mem_append_right _ (List.mem_map_of_mem _ hd))

/-- Witness for C9 at a concrete batch. -/
theorem element_classes_placement_witness :
    controlNode ⟨"5.1".data, "A".data, "x".data⟩ ∈
      createElements [⟨"5.1".data, "A".data, "x".data⟩]
        [⟨"7".data, "N".data, "c".data⟩] [] ∧
    documentNode ⟨"7".data, "N".data, "c".data⟩ ∈
      createElements [⟨"5.1".data, "A".data, "x".data⟩]
        [⟨"7".data, "N".data, "c".data⟩] [] :=
  ⟨(element_classes_placement [⟨"5.1".data, "A".data, "x".data⟩]
      [⟨"7".data, "N".data, "c".data⟩] []).1 _ (by decide),
   (element_classes_placement [⟨"5.1".data, "A".data, "x".data⟩]
      [⟨"7".data, "N".data, "c".data⟩] []).2.1 _ (by decide)⟩

/-! ## C10 — lookup helpers return the first match and never fail -/

/-- C10: `get_control_by_id` and `get_document_by_id` return the first list
element whose id equals the requested id, and `None` exactly when no element
matches; they are pure functions of the (unmodified) list. -/
theorem get_by_id_first_match (cs : List Control) (ds : List Document) (i : Str) :
    ((getControlById cs i = none) ↔ ∀ c ∈ cs, c.id ≠ i) ∧
    (∀ c, getControlById cs i = some c →
      c.id = i ∧ ∃ l1 l2, cs = l1 ++ c :: l2 ∧ ∀ c' ∈ l1, c'.id ≠ i) ∧
    ((getDocumentById ds i = none) ↔ ∀ d ∈ ds, d.id ≠ i) ∧
    (∀ d, getDocumentById ds i = some d →
      d.id = i ∧ ∃ l1 l2, ds = l1 ++ d :: l2 ∧ ∀ d' ∈ l1, d'.id ≠ i) := by
  refine ⟨?_, ?_, ?_, ?_⟩
  · induction cs with
    | nil => simp [getControlById]
    | cons c t ih =>
      simp only [getControlById]
      by_cases h : c.id = i
      · simp [h]
      · simp [h, ih]
  · induction cs with
    | nil => simp [getControlById]
    | cons c t ih =>
      intro x hx
      simp only [getControlById] at hx
      by_cases h : c.id = i
      · rw [if_pos h] at hx
        obtain rfl : c = x := Option.some.inj hx
        exact ⟨h, [], t, rfl, by simp⟩
      · rw [if_neg h] at hx
        obtain ⟨h1, l1, l2, he, hall⟩ := ih x hx
        exact ⟨h1, c :: l1, l2, by simp [he], by
          intro c' hc'
          rcases List.mem_cons.mp hc' with rfl | hm
          · exact h
          · exact hall c' hm⟩
  · induction ds with
    | nil => simp [getDocumentById]
    | cons d t ih =>
      simp only [getDocumentById]
      by_cases h : d.id = i
      · simp [h]
      · simp [h, ih]
  · induction ds with
    | nil => simp [getDocumentById]
    | cons d t ih =>
      intro x hx
      simp only [getDocumentById] at hx
      by_cases h : d.id = i
      · rw [if_pos h] at hx
        obtain rfl : d = x := Option.some.inj hx
        exact ⟨h, [], t, rfl, by simp⟩
      · rw [if_neg h] at hx
        obtain ⟨h1, l1, l2, he, hall⟩ := ih x hx
        exact ⟨h1, d :: l1, l2, by simp [he], by
          intro d' hd'
          rcases List.mem_cons.mp hd' with rfl | hm
          · exact h
          · exact hall d' hm⟩

/-- Witness for C10 at concrete lists. -/
theorem get_by_id_first_match_witness :
    getControlById [⟨"5.1".data, "A".data, "x".data⟩] "9".data = none ∧
    getDocumentById ([] : List Document) "9".data = none :=
  ⟨(get_by_id_first_match [⟨"5.1".data, "A".data, "x".data⟩] [] "9".data).1.mpr
      (by decide),
   (get_by_id_first_match [] [] "9".data).2.2.1.mpr (by decide)⟩

/-! ## C3 — error handling of the load operations -/

theorem stepControl_counts :
    ∀ (l : List FileEntry) (acc : List Control × List Warning),
      (l.foldl stepControl acc).1.length =
        acc.1.length +
          l.countP (fun e => (pyMatchFilename e.name).isSome && e.read.isSome) ∧
      (l.foldl stepControl acc).2.length =
        acc.2.length +
          l.countP (fun e => !((pyMatchFilename e.name).isSome && e.read.isSome)) := by
  intro l
  induction l with
  | nil => simp
  | cons e t ih =>
    intro acc
    rw [List.foldl_cons, List.countP_cons, List.countP_cons]
    obtain ⟨ih1, ih2⟩ := ih (stepControl acc e)
    rw [ih1, ih2]
    cases hm : pyMatchFilename e.name with
    | none => simp [stepControl, hm]; omega
    | some p =>
      obtain ⟨i, n⟩ := p
      cases hr : e.read with
      | none => simp [stepControl, hm, hr]; omega
      | some c => simp [stepControl, hm, hr]; omega

theorem stepDocument_counts :
    ∀ (l : List FileEntry) (acc : List Document × List Warning),
      (l.foldl stepDocument acc).1.length =
        acc.1.length +
          l.countP (fun e => (parseDocFilename e.name).isSome && e.read.isSome) ∧
      (l.foldl stepDocument acc).2.length =
        acc.2.length +
          l.countP (fun e => !((parseDocFilename e.name).isSome && e.read.isSome)) := by
  intro l
  induction l with
  | nil => simp
  | cons e t ih =>
    intro acc
    rw [List.foldl_cons, List.countP_cons, List.countP_cons]
    obtain ⟨ih1, ih2⟩ := ih (stepDocument acc e)
    rw [ih1, ih2]
    cases hm : parseDocFilename e.name with
    | none => simp [stepDocument, hm]; omega
    | some i =>
      cases hr : e.read with
      | none => simp [stepDocument, hm, hr]; omega
      | some c => simp [stepDocument, hm, hr]; omega

theorem stepSelected_counts (avail : List Str) (choose : List Str → List Str) :
    ∀ (l : List FileEntry) (acc : List SelectedControl × List Warning),
      (l.foldl (stepSelected avail choose) acc).1.length =
        acc.1.length +
          l.countP (fun e => !(decide (lowerS e.name = "template.md".data)) &&
            ((pyMatchFilename e.name).isSome && e.read.isSome)) ∧
      (l.foldl (stepSelected avail choose) acc).2.length =
        acc.2.length +
          l.countP (fun e => !(decide (lowerS e.name = "template.md".data)) &&
            !((pyMatchFilename e.name).isSome && e.read.isSome)) := by
  intro l
  induction l with
  | nil => simp
  | cons e t ih =>
    intro acc
    rw [List.foldl_cons, List.countP_cons, List.countP_cons]
    obtain ⟨ih1, ih2⟩ := ih (stepSelected avail choose acc e)
    rw [ih1, ih2]
    by_cases ht : lowerS e.name = "template.md".data
    · simp [stepSelected, ht]
    · cases hm : pyMatchFilename e.name with
      | none => simp [stepSelected, ht, hm]; omega
      | some p =>
        obtain ⟨i, n⟩ := p
        cases hr : e.read with
        | none => simp [stepSelected, ht, hm, hr]; omega
        | some c => simp [stepSelected, ht, hm, hr]; omega

/-- C3 (amended): each load operation fails exactly when its directory is
absent (and then returns no partial catalog); when the directory exists the
whole batch is processed without exception, producing one record per
readable `.md` file matching the naming pattern and one warning per `.md`
file that fails the pattern or cannot be read (for the selection load, the
reserved `template.md` is skipped silently).  Files whose name does not end
in `.md` are ignored without a warning. -/
theorem load_error_iff_and_counts :
    ((loadControls none).isOk = false ∧
      (loadDocuments none).isOk = false ∧
      ∀ docs choose, (loadSelectedControls none docs choose).isOk = false) ∧
    (∀ es, loadControls (some es) = .ok (loadControlsEntries es)) ∧
    (∀ es, loadDocuments (some es) = .ok (loadDocumentsEntries es)) ∧
    (∀ es docs choose, loadSelectedControls (some es) docs choose =
      .ok (loadSelectedControlsEntries es docs choose)) ∧
    (∀ es, (loadControlsEntries es).1.length =
        es.countP (fun e => ['.', 'm', 'd'].isSuffixOf e.name &&
          ((pyMatchFilename e.name).isSome && e.read.isSome)) ∧
      (loadControlsEntries es).2.length =
        es.countP (fun e => !((pyMatchFilename e.name).isSome && e.read.isSome) &&
          ['.', 'm', 'd'].isSuffixOf e.name)) ∧
    (∀ es, (loadDocumentsEntries es).1.length =
        es.countP (fun e => ['.', 'm', 'd'].isSuffixOf e.name &&
          ((parseDocFilename e.name).isSome && e.read.isSome)) ∧
      (loadDocumentsEntries es).2.length =
        es.countP (fun e => !((parseDocFilename e.name).isSome && e.read.isSome) &&
          ['.', 'm', 'd'].isSuffixOf e.name)) ∧
    (∀ es docs choose,
      (loadSelectedControlsEntries es docs choose).1.length =
        es.countP (fun e => (!(decide (lowerS e.name = "template.md".data)) &&
          ((pyMatchFilename e.name).isSome && e.read.isSome)) &&
          ['.', 'm', 'd'].isSuffixOf e.name) ∧
      (loadSelectedControlsEntries es docs choose).2.length =
        es.countP (fun e => (!(decide (lowerS e.name = "template.md".data)) &&
          !((pyMatchFilename e.name).isSome && e.read.isSome)) &&
          ['.', 'm', 'd'].isSuffixOf e.name)) := by
  refine ⟨⟨rfl, rfl, fun _ _ => rfl⟩, fun _ => rfl, fun _ => rfl,
    fun _ _ _ => rfl, ?_, ?_, ?_⟩
  · intro es
    constructor
    · have h := (stepControl_counts (globMd es) ([], [])).1
      unfold loadControlsEntries
      rw [(List.perm_insertionSort controlLe _).length_eq, h]
      simp [globMd, List.countP_filter, Bool.and_comm]
    · have h := (stepControl_counts (globMd es) ([], [])).2
      unfold loadControlsEntries
      rw [h]
      simp [globMd, List.countP_filter]
  · intro es
    constructor
    · have h := (stepDocument_counts (globMd es) ([], [])).1
      unfold loadDocumentsEntries
      rw [(List.perm_insertionSort documentLe _).length_eq, h]
      simp [globMd, List.countP_filter, Bool.and_comm]
    · have h := (stepDocument_counts (globMd es) ([], [])).2
      unfold loadDocumentsEntries
      rw [h]
      simp [globMd, List.countP_filter]
  · intro es docs choose
    constructor
    · have h := (stepSelected_counts (docs.map (fun d => d.id)) choose
        (globMd es) ([], [])).1
      unfold loadSelectedControlsEntries
      rw [(List.perm_insertionSort selectedLe _).length_eq, h]
      simp [globMd, List.countP_filter]
    · have h := (stepSelected_counts (docs.map (fun d => d.id)) choose
        (globMd es) ([], [])).2
      unfold loadSelectedControlsEntries
      rw [h]
      simp [globMd, List.countP_filter]

/-- Counterexample to C3 as stated: a directory holding one malformed
filename (`notes.txt`, which fails the naming pattern) and one valid file
yields one parsed record but **zero** warnings — the loop only iterates over
the `*.md` glob, so a non-`.md` file is excluded silently, not warned
about. -/
theorem load_controls_non_md_silent :
    loadControls (some [⟨"notes.txt".data, some "x".data⟩,
      ⟨"5.1 A.md".data, some "c".data⟩]) =
      .ok ([⟨"5.1".data, "A".data, "c".data⟩], []) ∧
    pyMatchFilename "notes.txt".data = none := by
  constructor
  · rfl
  · decide

/-! ## C4 — reference-document name fallback -/

theorem stepDocument_name_inv :
    ∀ (l : List FileEntry) (acc : List Document × List Warning),
      (∀ d ∈ acc.1, d.name = docName d.content d.id) →
      ∀ d ∈ (l.foldl stepDocument acc).1, d.name = docName d.content d.id := by
  intro l
  induction l with
  | nil => intro acc h; exact h
  | cons e t ih =>
    intro acc h
    rw [List.foldl_cons]
    refine ih (stepDocument acc e) ?_
    intro d hd
    unfold stepDocument at hd
    cases hm : parseDocFilename e.name with
    | none => rw [hm] at hd; exact h d hd
    | some i =>
      rw [hm] at hd
      cases hr : e.read with
      | none => rw [hr] at hd; exact h d hd
      | some c =>
        rw [hr] at hd
        rcases List.mem_append.mp hd with hin | hone
        · exact h d hin
        · rw [List.mem_singleton] at hone
          subst hone
          rfl

/-- C4 (amended): the loaded name is `docName content id`, which only
consults the **first** line of the content: when the stripped first line
does not begin with `#`, the name is that stripped first line itself, and it
equals the id exactly when the stripped first line is empty.  (A document
whose later lines carry `#` headings but whose first line is a non-empty
non-heading is named after the raw first line, not the id.) -/
theorem document_name_first_line (content id : Str) (entries : List FileEntry)
    (h : ¬ (pyStrip (firstLine content)).head? = some '#') :
    docName content id =
      (if pyStrip (firstLine content) = [] then id
        else pyStrip (firstLine content)) ∧
    ∀ d ∈ (loadDocumentsEntries entries).1, d.name = docName d.content d.id := by
  constructor
  · unfold docName
    simp only [h, if_false, reduceIte]
  · intro d hd
    unfold loadDocumentsEntries at hd
    have hmem : d ∈ ((globMd entries).foldl stepDocument ([], [])).1 :=
      (List.perm_insertionSort documentLe _).subset hd
    exact stepDocument_name_inv (globMd entries) ([], []) (by simp) d hmem

/-- Witness for C4 (amended): content `"Hello"` with id `"7"` is named
`"Hello"`. -/
theorem document_name_first_line_witness :
    docName "Hello".data "7".data =
      (if pyStrip (firstLine "Hello".data) = [] then "7".data
        else pyStrip (firstLine "Hello".data)) ∧
    docName "Hello".data "7".data = "Hello".data :=
  ⟨(document_name_first_line "Hello".data "7".data [] (by decide)).1, by decide⟩

/-- Counterexample to C4 as stated: a document whose content `"Hello"`
contains no line starting with `#` is loaded with name `"Hello"`, not its id
`"7"` — the code falls back to the id only when the first line is blank. -/
theorem document_name_not_id :
    loadDocuments (some [⟨"7.md".data, some "Hello".data⟩]) =
      .ok ([⟨"7".data, "Hello".data, "Hello".data⟩], []) ∧
    ('#' ∉ "Hello".data) ∧ "Hello".data ≠ "7".data := by
  refine ⟨rfl, by decide, by decide⟩

/-! ## C5 — source-URL extraction -/

theorem sourceUrlAt_ne_nil {s u : Str} (h : sourceUrlAt s = some u) : u ≠ [] := by
  unfold sourceUrlAt at h
  by_cases h15 : s.take 15 = sourceUrlMarker
  · rw [if_pos h15] at h
    by_cases h8 : ((s.drop 15).dropWhile isPySpace).take 8 = httpsLit
    · rw [if_pos h8] at h
      by_cases hrun : (((s.drop 15).dropWhile isPySpace).drop 8).takeWhile
          (fun c => !isPySpace c) = []
      · rw [if_pos hrun] at h; exact absurd h (by simp)
      · rw [if_neg hrun] at h
        obtain rfl := Option.some.inj h
        simp [httpsLit]
    · rw [if_neg h8] at h
      by_cases h7 : ((s.drop 15).dropWhile isPySpace).take 7 = httpLit
      · rw [if_pos h7] at h
        by_cases hrun : (((s.drop 15).dropWhile isPySpace).drop 7).takeWhile
            (fun c => !isPySpace c) = []
        · rw [if_pos hrun] at h; exact absurd h (by simp)
        · rw [if_neg hrun] at h
          obtain rfl := Option.some.inj h
          simp [httpLit]
      · rw [if_neg h7] at h; exact absurd h (by simp)
  · rw [if_neg h15] at h; exact absurd h (by simp)

theorem searchSourceUrl_none_iff (s : Str) :
    searchSourceUrl s = none ↔ ∀ i, sourceUrlAt (s.drop i) = none := by
  induction s with
  | nil =>
    simp only [searchSourceUrl, List.drop_nil, true_iff]
    intro i
    decide
  | cons c t ih =>
    simp only [searchSourceUrl]
    cases h : sourceUrlAt (c :: t) with
    | some u =>
      simp only [false_iff, not_forall]
      constructor
      · intro habs; exact absurd habs (by simp)
      · intro hall
        have := hall 0
        rw [List.drop_zero] at this
        rw [h] at this
        exact absurd this (by simp)
    | none =>
      rw [ih]
      constructor
      · intro hall i
        cases i with
        | zero => rw [List.drop_zero]; exact h
        | succ j => rw [List.drop_succ_cons]; exact hall j
      · intro hall j
        have := hall (j + 1)
        rwa [List.drop_succ_cons] at this

theorem searchSourceUrl_first (s : Str) (u : Str)
    (h : searchSourceUrl s = some u) :
    ∃ i, sourceUrlAt (s.drop i) = some u ∧
      ∀ j < i, sourceUrlAt (s.drop j) = none := by
  induction s with
  | nil => exact absurd h (by simp [searchSourceUrl])
  | cons c t ih =>
    rw [searchSourceUrl] at h
    cases h0 : sourceUrlAt (c :: t) with
    | some v =>
      rw [h0] at h
      obtain rfl := Option.some.inj h
      exact ⟨0, by rw [List.drop_zero]; exact h0, fun j hj => absurd hj (by omega)⟩
    | none =>
      rw [h0] at h
      obtain ⟨i, hi, hj⟩ := ih h
      refine ⟨i + 1, by rwa [List.drop_succ_cons], ?_⟩
      intro j hlt
      cases j with
      | zero => rw [List.drop_zero]; exact h0
      | succ j' => rw [List.drop_succ_cons]; exact hj j' (by omega)

/-- C5 (amended): the selector metadata record's `url` field (the only
place a source URL is computed — the visual catalog's `Document` records
carry just `id`, `name`, `content`) is the captured group of the **first**
occurrence anywhere in the content of the marker `**Source URL:**` followed
by optional whitespace and an `http(s)` URL; it is empty exactly when no
position of the content matches, and the marker need not occupy a line of
its own. -/
theorem source_url_extraction (c fn : Str) :
    (extractDocumentMetadata c fn).url = metaUrl c ∧
    ((metaUrl c = []) ↔ ∀ i, sourceUrlAt (c.drop i) = none) ∧
    (∀ u, searchSourceUrl c = some u →
      ∃ i, sourceUrlAt (c.drop i) = some u ∧
        ∀ j < i, sourceUrlAt (c.drop j) = none) := by
  refine ⟨rfl, ?_, searchSourceUrl_first c⟩
  unfold metaUrl
  cases h : searchSourceUrl c with
  | none =>
    simp only [Option.getD_none, true_iff]
    exact (searchSourceUrl_none_iff c).mp h
  | some u =>
    simp only [Option.getD_some]
    constructor
    · intro hu
      obtain ⟨i, hi, _⟩ := searchSourceUrl_first c [] (hu ▸ h)
      exact absurd rfl (sourceUrlAt_ne_nil hi)
    · intro hall
      have := (searchSourceUrl_none_iff c).mpr hall
      rw [h] at this
      exact absurd this (by simp)

/-- Witness for C5 (amended) at a concrete content. -/
theorem source_url_extraction_witness :
    (extractDocumentMetadata "x **Source URL:** https://a y".data "7.md".data).url =
      metaUrl "x **Source URL:** https://a y".data ∧
    metaUrl "x **Source URL:** https://a y".data = "https://a".data :=
  ⟨(source_url_extraction "x **Source URL:** https://a y".data "7.md".data).1,
   by decide⟩

/-- Counterexample to C5 as stated: no line of this content has the fixed
form `**Source URL:** <url>` (the single line neither starts with the
marker nor is only marker-plus-URL), yet the extracted `url` is non-empty —
the regex is matched anywhere inside a line, not against whole lines. -/
theorem source_url_marker_not_line :
    (∀ l ∈ splitLines "x **Source URL:** https://a y".data,
      l.take 15 ≠ sourceUrlMarker) ∧
    (extractDocumentMetadata "x **Source URL:** https://a y".data
      "7.md".data).url = "https://a".data ∧
    "https://a".data ≠ ([] : Str) := by
  refine ⟨by decide, by decide, by decide⟩

/-! ## C8 — filename parsing -/

theorem takeWhile_append_all {p : Char → Bool} :
    ∀ (l1 l2 : List Char), (∀ c ∈ l1, p c = true) →
      (∀ c, l2.head? = some c → p c = false) →
      (l1 ++ l2).takeWhile p = l1 ∧ (l1 ++ l2).dropWhile p = l2 := by
  intro l1
  induction l1 with
  | nil =>
    intro l2 _ h2
    cases l2 with
    | nil => simp
    | cons c t =>
      have := h2 c rfl
      simp [List.takeWhile, List.dropWhile, this]
  | cons a t ih =>
    intro l2 h1 h2
    have ha := h1 a (List.mem_cons_self a t)
    have h' := ih l2 (fun c hc => h1 c (List.mem_cons_of_mem _ hc)) h2
    simp [List.takeWhile_cons, List.dropWhile_cons, ha, h'.1, h'.2]

theorem isPySpace_not_digit {c : Char} (h : isPySpace c = true) :
    isDigitC c = false := by
  simp only [isPySpace, Bool.or_eq_true, decide_eq_true_eq] at h
  rcases h with ((((rfl | rfl) | rfl) | rfl) | rfl) | rfl <;> decide

theorem lazyMdSplit_full :
    ∀ (mid : Str), mid ≠ [] → '\n' ∉ mid →
      lazyMdSplit (mid ++ ['.', 'm', 'd']) = some mid := by
  intro mid
  induction mid with
  | nil => intro h _; exact absurd rfl h
  | cons c m ih =>
    intro _ hnl
    have hc : ¬ c = '\n' := fun h => hnl (h ▸ List.mem_cons_self c m)
    cases m with
    | nil => simp [lazyMdSplit, hc]
    | cons x m' =>
      have h3 : ¬ ((x :: m') ++ ['.', 'm', 'd'] = ['.', 'm', 'd']) := by
        intro he
        have := congrArg List.length he
        simp at this
      have h4 : ¬ ((x :: m') ++ ['.', 'm', 'd'] = ['.', 'm', 'd', '\n']) := by
        intro he
        have hlen := congrArg List.length he
        simp at hlen
        obtain rfl : m' = [] := hlen
        simp at he
      have ih' := ih (by simp) (fun hm => hnl (List.mem_cons_of_mem _ hm))
      rw [List.cons_append, lazyMdSplit]
      simp only [hc, if_false, h3, h4, Bool.or_self, reduceIte, ih']
      simp

/-- C8 (amended): for a filename of the shape
`<digits>.<digits><whitespace-run><name>.md` — where the name is non-empty,
does not start with whitespace and contains no newline — the parsed id is
the digit groups (equivalently, the substring before the **first whitespace
character**) and the parsed name is the substring strictly between the
**whole whitespace run** and the `.md` suffix.  With a single-space
separator this coincides with "between the first space and `.md`"; with a
longer run it does not (see the counterexample). -/
theorem filename_parse (d1 d2 w mid : Str)
    (hd1 : d1 ≠ [] ∧ ∀ c ∈ d1, isDigitC c = true)
    (hd2 : d2 ≠ [] ∧ ∀ c ∈ d2, isDigitC c = true)
    (hw : w ≠ [] ∧ ∀ c ∈ w, isPySpace c = true)
    (hmid : mid ≠ [] ∧ (∀ c, mid.head? = some c → isPySpace c = false) ∧
      '\n' ∉ mid) :
    pyMatchFilename
      (d1 ++ '.' :: (d2 ++ (w ++ (mid ++ ['.', 'm', 'd'])))) =
      some (d1 ++ '.' :: d2, mid) := by
  obtain ⟨hd1ne, hd1all⟩ := hd1
  obtain ⟨hd2ne, hd2all⟩ := hd2
  obtain ⟨hwne, hwall⟩ := hw
  obtain ⟨hmidne, hmidhead, hmidnl⟩ := hmid
  have hdot : ∀ c, ('.' :: (d2 ++ (w ++ (mid ++ ['.', 'm', 'd'])))).head? = some c →
      isDigitC c = false := by
    intro c hc
    rw [List.head?_cons] at hc
    obtain rfl := Option.some.inj hc
    decide
  have step1 := takeWhile_append_all d1 ('.' :: (d2 ++ (w ++ (mid ++ ['.', 'm', 'd']))))
    hd1all hdot
  have hwhead : ∀ c, (w ++ (mid ++ ['.', 'm', 'd'])).head? = some c →
      isDigitC c = false := by
    intro c hc
    cases w with
    | nil => exact absurd rfl hwne
    | cons wh wt =>
      rw [List.cons_append, List.head?_cons] at hc
      obtain rfl : wh = c := Option.some.inj hc
      exact isPySpace_not_digit (hwall wh (List.mem_cons_self wh wt))
  have step2 := takeWhile_append_all d2 (w ++ (mid ++ ['.', 'm', 'd']))
    hd2all hwhead
  have hmidhead' : ∀ c, (mid ++ ['.', 'm', 'd']).head? = some c →
      isPySpace c = false := by
    intro c hc
    cases mid with
    | nil => exact absurd rfl hmidne
    | cons mh mt =>
      rw [List.cons_append, List.head?_cons] at hc
      exact hmidhead c (by rw [List.head?_cons, ← hc])
  have step3 := takeWhile_append_all w (mid ++ ['.', 'm', 'd']) hwall hmidhead'
  unfold pyMatchFilename
  rw [step1.1, step1.2, if_neg hd1ne]
  simp only []
  rw [step2.1, step2.2, if_neg hd2ne]
  rw [step3.1, step3.2, if_neg hwne]
  cases w with
  | nil => exact absurd rfl hwne
  | cons wh wt =>
    have hdrop : (wh :: wt).drop (wt.length + 1) = [] := by
      rw [← List.length_cons wh wt]
      exact List.drop_length _
    rw [List.length_cons, mdBacktrack, hdrop, List.nil_append,
      lazyMdSplit_full mid hmidne hmidnl]

/-- Witness for C8 (amended): `"5.1 Access rights.md"` parses to id `"5.1"`
and name `"Access rights"`. -/
theorem filename_parse_witness :
    pyMatchFilename
      ("5".data ++ '.' :: ("1".data ++ (" ".data ++
        ("Access rights".data ++ ['.', 'm', 'd'])))) =
      some ("5".data ++ '.' :: "1".data, "Access rights".data) :=
  filename_parse "5".data "1".data " ".data "Access rights".data
    (by decide) (by decide) (by decide) (by decide)

/-- Counterexample to C8 as stated: in `"5.1  X.md"` (two spaces) the
substring between the first space and the `.md` suffix is `" X"`, but the
parsed name is `"X"` — the regex's `\s+` consumes the whole whitespace run,
not just the first space. -/
theorem filename_parse_double_space :
    pyMatchFilename "5.1  X.md".data = some ("5.1".data, "X".data) ∧
    "X".data ≠ ' ' :: "X".data := by
  refine ⟨by decide, by decide⟩

/-! ## C1 — cross-reference extraction -/

theorem validDedup_dedup (l : List Str) : ValidDedup l l.dedup :=
  ⟨List.nodup_dedup l, fun _ => List.mem_dedup⟩

/-- C1: for every content string, known-id set and set-iteration order,
`extract_document_ids_from_content` returns a list containing exactly the
digit runs scanned after `/pages/` that are known ids (unknown ones silently
dropped), without duplicates and sorted ascending by integer value. -/
theorem extract_document_ids_spec (content : Str) (avail : List Str)
    (order : List Str) (h : ValidDedup (findPageIds content) order) :
    (∀ x, x ∈ extractCore order avail ↔
      x ∈ findPageIds content ∧ x ∈ avail) ∧
    (extractCore order avail).Nodup ∧
    List.Pairwise strIntLe (extractCore order avail) := by
  have hperm := List.perm_insertionSort strIntLe
    (order.filter (fun x => decide (x ∈ avail)))
  refine ⟨?_, ?_, ?_⟩
  · intro x
    rw [extractCore, hperm.mem_iff, List.mem_filter]
    rw [h.2 x]
    simp
  · exact hperm.nodup_iff.mpr (h.1.filter _)
  · exact List.sorted_insertionSort strIntLe _

/-- Witness for C1: the specification's concrete example — known ids
`{"123456"}`, content referencing `123456` twice and `999999` once. -/
theorem extract_document_ids_spec_witness :
    (extractCore
      (findPageIds "a /pages/123456 b /pages/123456 c /pages/999999".data).dedup
      ["123456".data]).Nodup ∧
    List.Pairwise strIntLe
      (extractCore
        (findPageIds "a /pages/123456 b /pages/123456 c /pages/999999".data).dedup
        ["123456".data]) ∧
    extractCore
      (findPageIds "a /pages/123456 b /pages/123456 c /pages/999999".data).dedup
      ["123456".data] = ["123456".data] :=
  ⟨(extract_document_ids_spec
      "a /pages/123456 b /pages/123456 c /pages/999999".data ["123456".data] _
      (validDedup_dedup _)).2.1,
   (extract_document_ids_spec
      "a /pages/123456 b /pages/123456 c /pages/999999".data ["123456".data] _
      (validDedup_dedup _)).2.2,
   by decide⟩

/-! ## C6 — determinism of the pipeline across set-iteration orders -/

theorem eq_of_perm_of_map_eq {α β : Type} (f : α → β) :
    ∀ (l1 l2 : List α), l1.Perm l2 → l1.map f = l2.map f →
      (∀ x ∈ l1, ∀ y ∈ l1, f x = f y → x = y) → l1 = l2 := by
  intro l1
  induction l1 with
  | nil =>
    intro l2 hp _ _
    exact (hp.symm.eq_nil).symm
  | cons a t ih =>
    intro l2 hp hm hinj
    cases l2 with
    | nil => exact absurd (hp.eq_nil) (by simp)
    | cons b t2 =>
      simp only [List.map_cons, List.cons.injEq] at hm
      have hbmem : b ∈ a :: t := hp.symm.subset (List.mem_cons_self b t2)
      have hab : a = b := hinj a (List.mem_cons_self a t) b hbmem hm.1
      subst hab
      have ht : t.Perm t2 := hp.cons_inv
      have := ih t2 ht hm.2 (fun x hx y hy => hinj x (List.mem_cons_of_mem _ hx)
        y (List.mem_cons_of_mem _ hy))
      rw [this]

/-- Two nodup lists with the same members, both stably sorted by the integer
key, are equal as soon as the key is injective on their members. -/
theorem sorted_nodup_int_unique (l1 l2 : List Str)
    (s1 : List.Pairwise strIntLe l1) (s2 : List.Pairwise strIntLe l2)
    (n1 : l1.Nodup) (n2 : l2.Nodup)
    (hmem : ∀ x, x ∈ l1 ↔ x ∈ l2)
    (hinj : ∀ x ∈ l1, ∀ y ∈ l1, digitsToNat x = digitsToNat y → x = y) :
    l1 = l2 := by
  have hperm : l1.Perm l2 := (List.perm_ext_iff_of_nodup n1 n2).mpr hmem
  have hs1 : List.Sorted (· ≤ ·) (l1.map digitsToNat) :=
    List.pairwise_map.mpr s1
  have hs2 : List.Sorted (· ≤ ·) (l2.map digitsToNat) :=
    List.pairwise_map.mpr s2
  have hmap : l1.map digitsToNat = l2.map digitsToNat :=
    List.eq_of_perm_of_sorted (hperm.map digitsToNat) hs1 hs2
  exact eq_of_perm_of_map_eq digitsToNat l1 l2 hperm hmap hinj

/-- The extraction result does not depend on the set-iteration order as long
as the integer key separates the available identifiers. -/
theorem extractCore_order_irrelevant (o1 o2 avail : List Str)
    (n1 : o1.Nodup) (n2 : o2.Nodup) (hmem : ∀ x, x ∈ o1 ↔ x ∈ o2)
    (hinj : ∀ x ∈ avail, ∀ y ∈ avail, digitsToNat x = digitsToNat y → x = y) :
    extractCore o1 avail = extractCore o2 avail := by
  have h1 := List.perm_insertionSort strIntLe (o1.filter (fun x => decide (x ∈ avail)))
  have h2 := List.perm_insertionSort strIntLe (o2.filter (fun x => decide (x ∈ avail)))
  apply sorted_nodup_int_unique
  · exact List.sorted_insertionSort strIntLe _
  · exact List.sorted_insertionSort strIntLe _
  · exact h1.nodup_iff.mpr (n1.filter _)
  · exact h2.nodup_iff.mpr (n2.filter _)
  · intro x
    rw [extractCore, extractCore, h1.mem_iff, h2.mem_iff, List.mem_filter,
      List.mem_filter, hmem x]
  · intro x hx y hy
    rw [extractCore, h1.mem_iff, List.mem_filter] at hx hy
    exact hinj x (by simpa using hx.2) y (by simpa using hy.2)

theorem chooseFwd_valid : ChooseValid chooseFwd :=
  fun ms => validDedup_dedup ms

theorem chooseRev_valid : ChooseValid chooseRev :=
  fun ms => ⟨List.nodup_dedup _, fun x => by
    rw [chooseRev, List.mem_dedup, List.mem_reverse]⟩

theorem loadSelected_congr (entries : List FileEntry) (docs : List Document)
    (c1 c2 : List Str → List Str)
    (h : ∀ ms, extractCore (c1 ms) (docs.map (fun d => d.id)) =
      extractCore (c2 ms) (docs.map (fun d => d.id))) :
    loadSelectedControlsEntries entries docs c1 =
      loadSelectedControlsEntries entries docs c2 := by
  unfold loadSelectedControlsEntries
  have hstep : stepSelected (docs.map (fun d => d.id)) c1 =
      stepSelected (docs.map (fun d => d.id)) c2 := by
    funext acc e
    unfold stepSelected
    cases hm : pyMatchFilename e.name with
    | none => rfl
    | some p =>
      obtain ⟨i, n⟩ := p
      cases hr : e.read with
      | none => rfl
      | some c =>
        by_cases ht : lowerS e.name = "template.md".data
        · simp [ht]
        · simp [ht, h (findPageIds c)]
  rw [hstep]

/-- C6 (amended): the full pipeline over fixed directory listings yields
identical element lists for any two set-iteration orders of the
deduplication step, provided the integer values of the loaded reference
document identifiers are pairwise distinct. -/
theorem pipeline_dedup_independent (ec ed es : List FileEntry)
    (c1 c2 : List Str → List Str) (h1 : ChooseValid c1) (h2 : ChooseValid c2)
    (hinj : ∀ x ∈ (loadDocumentsEntries ed).1.map (fun d : Document => d.id),
      ∀ y ∈ (loadDocumentsEntries ed).1.map (fun d : Document => d.id),
        digitsToNat x = digitsToNat y → x = y) :
    pipeline ec ed es c1 = pipeline ec ed es c2 := by
  unfold pipeline
  rw [loadSelected_congr es (loadDocumentsEntries ed).1 c1 c2 ?_]
  intro ms
  exact extractCore_order_irrelevant (c1 ms) (c2 ms) _
    (h1 ms).1 (h2 ms).1 (fun x => ((h1 ms).2 x).trans ((h2 ms).2 x).symm) hinj

/-- Witness for C6 (amended) at a concrete file set with distinct integer
ids. -/
theorem pipeline_dedup_independent_witness :
    pipeline [] [⟨"123.md".data, some []⟩]
      [⟨"5.1 A.md".data, some "/pages/123".data⟩] chooseFwd =
    pipeline [] [⟨"123.md".data, some []⟩]
      [⟨"5.1 A.md".data, some "/pages/123".data⟩] chooseRev :=
  pipeline_dedup_independent [] [⟨"123.md".data, some []⟩]
    [⟨"5.1 A.md".data, some "/pages/123".data⟩] chooseFwd chooseRev
    chooseFwd_valid chooseRev_valid (by decide)

/-! ## C2 — sorting by the id's numeric parts -/

theorem floatOfNat_small {n : Nat} (h : n < 2 ^ 53) : floatOfNat n = n := by
  unfold floatOfNat
  rw [if_pos h]

theorem controlFloatKey_eq_intKey {s : Str}
    (h1 : digitsToNat (idMajor s) < 2 ^ 53)
    (h2 : digitsToNat (idMinor s) < 2 ^ 53) :
    controlFloatKey s = controlIntKey s := by
  unfold controlFloatKey controlIntKey
  rw [floatOfNat_small h1, floatOfNat_small h2]

/-- C2 (amended): both loaders return their batch sorted ascending by the
pair `(major, minor)` with each part compared as its own integer, provided
every loaded id's parts are below `2^53` — the bound below which Python's
`float` conversion of the digit strings is exact. -/
theorem load_sorted_by_int (ec es : List FileEntry) (docs : List Document)
    (choose : List Str → List Str)
    (hc : ∀ c ∈ (loadControlsEntries ec).1,
      digitsToNat (idMajor c.id) < 2 ^ 53 ∧ digitsToNat (idMinor c.id) < 2 ^ 53)
    (hs : ∀ s ∈ (loadSelectedControlsEntries es docs choose).1,
      digitsToNat (idMajor s.id) < 2 ^ 53 ∧ digitsToNat (idMinor s.id) < 2 ^ 53) :
    List.Pairwise
      (fun a b : Control => pairLe (controlIntKey a.id) (controlIntKey b.id))
      (loadControlsEntries ec).1 ∧
    List.Pairwise
      (fun a b : SelectedControl => pairLe (controlIntKey a.id) (controlIntKey b.id))
      (loadSelectedControlsEntries es docs choose).1 := by
  constructor
  · have hsorted : List.Pairwise controlLe (loadControlsEntries ec).1 := by
      unfold loadControlsEntries
      exact List.sorted_insertionSort controlLe _
    refine hsorted.imp_of_mem ?_
    intro a b ha hb hab
    obtain ⟨ha1, ha2⟩ := hc a ha
    obtain ⟨hb1, hb2⟩ := hc b hb
    unfold controlLe at hab
    rwa [controlFloatKey_eq_intKey ha1 ha2, controlFloatKey_eq_intKey hb1 hb2]
      at hab
  · have hsorted : List.Pairwise selectedLe
        (loadSelectedControlsEntries es docs choose).1 := by
      unfold loadSelectedControlsEntries
      exact List.sorted_insertionSort selectedLe _
    refine hsorted.imp_of_mem ?_
    intro a b ha hb hab
    obtain ⟨ha1, ha2⟩ := hs a ha
    obtain ⟨hb1, hb2⟩ := hs b hb
    unfold selectedLe at hab
    rwa [controlFloatKey_eq_intKey ha1 ha2, controlFloatKey_eq_intKey hb1 hb2]
      at hab

/-- Witness for C2 (amended): ids `5.1`, `5.2`, `5.10` loaded in another
order come out as `5.1, 5.2, 5.10`. -/
theorem load_sorted_by_int_witness :
    List.Pairwise
      (fun a b : Control => pairLe (controlIntKey a.id) (controlIntKey b.id))
      (loadControlsEntries
        [⟨"5.2 B.md".data, some []⟩, ⟨"5.10 C.md".data, some []⟩,
         ⟨"5.1 A.md".data, some []⟩]).1 ∧
    (loadControlsEntries
      [⟨"5.2 B.md".data, some []⟩, ⟨"5.10 C.md".data, some []⟩,
       ⟨"5.1 A.md".data, some []⟩]).1.map (fun c => c.id) =
      ["5.1".data, "5.2".data, "5.10".data] :=
  ⟨(load_sorted_by_int
      [⟨"5.2 B.md".data, some []⟩, ⟨"5.10 C.md".data, some []⟩,
       ⟨"5.1 A.md".data, some []⟩] [] [] chooseFwd (by decide) (by decide)).1,
   by decide⟩

set_option exponentiation.threshold 1200 in
set_option maxRecDepth 4000 in
/-- Counterexample to C2 as stated: the code sorts by `float` of each part,
which is not injective on integers at `2^53` — ids `1.9007199254740993` and
`1.9007199254740992` have equal float keys, so the stable sort keeps them in
listing order, descending by integer value. -/
theorem load_controls_not_int_sorted :
    (loadControlsEntries
      [⟨"1.9007199254740993 A.md".data, some []⟩,
       ⟨"1.9007199254740992 B.md".data, some []⟩]).1.map (fun c => c.id) =
      ["1.9007199254740993".data, "1.9007199254740992".data] ∧
    ¬ List.Pairwise
      (fun a b : Control => pairLe (controlIntKey a.id) (controlIntKey b.id))
      (loadControlsEntries
        [⟨"1.9007199254740993 A.md".data, some []⟩,
         ⟨"1.9007199254740992 B.md".data, some []⟩]).1 :=
  ⟨by decide, by decide⟩

/-- Counterexample to C6 as stated: with known reference ids `"123"` and
`"0123"` (distinct strings, equal integer value) both cross-referenced by a
selection report, the edge order of the assembled element list depends on
the iteration order of the deduplication set, even though every collection
is sorted before being returned — the integer sort key ties and Python's
stable sort then preserves the set's unspecified order. -/
theorem pipeline_dedup_order_leaks :
    ChooseValid chooseFwd ∧ ChooseValid chooseRev ∧
    pipeline [] [⟨"123.md".data, some []⟩, ⟨"0123.md".data, some []⟩]
      [⟨"5.1 A.md".data, some "/pages/123 /pages/0123".data⟩] chooseFwd ≠
    pipeline [] [⟨"123.md".data, some []⟩, ⟨"0123.md".data, some []⟩]
      [⟨"5.1 A.md".data, some "/pages/123 /pages/0123".data⟩] chooseRev :=
  ⟨chooseFwd_valid, chooseRev_valid,
   fun h => absurd (congrArg edgeTargets h) (by decide)⟩


end ISOMap
